import Mathlib

/-!
# Verification of the sage synchronization and reconciliation engine

A shallow embedding, in Lean 4, of the parts of the sage repository that the
verified properties talk about:

* the double-entry ledger data model and its mutation operations
  (package `ledger`; these sources are not in the provided tree, so the
  operations are modelled from the specification, as marked on each
  definition);
* the categorization rule engine (package `rules`; likewise modelled from
  the specification);
* the reconciliation engine (package `sync`; likewise modelled from the
  specification);
* the direct-connect statement client (package `direct` /
  `directconnect`): `fetchTransactions`, `ValidateConnector`,
  `ParseAccountType`, translated from the Go sources;
* the HTTP handlers `verifyAccount` and `updateAccount` (package
  `server`), translated from the Go sources;
* the background periodic sync goroutine of `server.Run`, translated from
  the Go source.

Go machine integers are modelled as `Int`; currency amounts are signed
integers in the smallest currency unit; dates are `Nat` (days, ordered);
Go strings are Lean `String`s except in the `directconnect` account-type
module, where Go's rune-wise `strings.ToUpper` is modelled on `List Char`
(its ASCII fragment, which covers the account-type vocabulary).
Fallible Go functions returning `(value, error)` are modelled with
`Except`/`Option`.
-/

namespace ledger

/-- A ledger posting: target account name, signed amount (smallest currency
unit), and currency. Modelled from the spec data model. -/
structure Posting where
  account : String
  amount : Int
  currency : String
deriving DecidableEq, Repr

/-- A ledger transaction: date, payee, optional institution transaction id,
comment, and an ordered list of postings. Modelled from the spec data
model. -/
structure Transaction where
  date : Nat
  payee : String
  extID : Option String
  comment : String
  postings : List Posting
deriving DecidableEq, Repr

/-- The ledger: a chronologically ordered sequence of transactions.
Modelled from the spec data model. -/
structure Ledger where
  transactions : List Transaction
deriving DecidableEq, Repr

/-- Sum of a transaction's posting amounts. -/
def Transaction.postingSum (t : Transaction) : Int :=
  (t.postings.map Posting.amount).sum

/-- Double-entry balance of a single transaction: posting amounts sum to
zero exactly (amounts are integers in the smallest currency unit, so the
spec's fractional-currency epsilon is exact zero here). -/
def Transaction.balanced (t : Transaction) : Prop :=
  t.postingSum = 0

instance (t : Transaction) : Decidable t.balanced := by
  unfold Transaction.balanced; infer_instance

/-- Ledger-wide double-entry invariant: every committed transaction is
balanced. -/
def Ledger.balanced (l : Ledger) : Prop :=
  ∀ t ∈ l.transactions, t.balanced

instance (l : Ledger) : Decidable l.balanced := by
  unfold Ledger.balanced; infer_instance

/-- Insert a transaction in sorted position by date; ties keep the existing
transactions first (original insertion order). Modelled from the spec:
"inserts in sorted position", "ties broken by original insertion order". -/
def insertSorted (t : Transaction) : List Transaction → List Transaction
  | [] => [t]
  | u :: rest => if t.date < u.date then t :: u :: rest else u :: insertSorted t rest

/-- Modelled from the spec: `AddTransaction(tx)` fails with
`ImbalancedPostingError` if posting amounts do not sum to zero; otherwise
inserts in sorted position. (The `ledger` package source is not in the
provided tree.) -/
def Ledger.AddTransaction (l : Ledger) (t : Transaction) : Except String Ledger :=
  if t.postingSum = 0 then
    .ok ⟨insertSorted t l.transactions⟩
  else
    .error "ImbalancedPostingError"

/-- Rename a posting's account when it matches `old`. -/
def Posting.rename (old nw : String) (p : Posting) : Posting :=
  if p.account = old then { p with account := nw } else p

/-- Rename account `old` to `nw` on every posting of a transaction. -/
def Transaction.rename (old nw : String) (t : Transaction) : Transaction :=
  { t with postings := t.postings.map (Posting.rename old nw) }

/-- Does any posting of any transaction reference this account name? -/
def Ledger.hasAccount (l : Ledger) (name : String) : Bool :=
  l.transactions.any (fun t => t.postings.any (fun p => p.account = name))

/-- Modelled from the spec: `UpdateAccountName(old, new)` renames a ledger
account across all historical postings; fails with `NotFoundError` if `old`
has no postings. (The `ledger` package source is not in the provided tree;
the server handler calls it as `ldg.UpdateAccount`.) The model is pure, so
on failure no new ledger is produced and the caller keeps the old one
unchanged. -/
def Ledger.UpdateAccount (l : Ledger) (old nw : String) : Except String Ledger :=
  if l.hasAccount old then
    .ok ⟨l.transactions.map (Transaction.rename old nw)⟩
  else
    .error "NotFoundError"

/-- Balance of an account as of a date: sum of this account's posting
amounts over transactions dated at or before `asOf`. -/
def Ledger.balance (l : Ledger) (account : String) (asOf : Nat) : Int :=
  ((l.transactions.filter (fun t => t.date ≤ asOf)).map
    (fun t => ((t.postings.filter (fun p => p.account = account)).map Posting.amount).sum)).sum

/-- The equity account the synthetic opening-balance transaction balances
against. Modelled from the spec. -/
def openingBalanceAccount : String := "equity:opening balances"

/-- Modelled from the spec: `SetOpeningBalance(account, amount, asOf)`
injects a synthetic balancing transaction so the running balance at `asOf`
matches `amount`. (The `ledger` package source is not in the provided
tree.) -/
def Ledger.SetOpeningBalance (l : Ledger) (account : String) (amount : Int)
    (asOf : Nat) (currency : String) : Ledger :=
  let diff : Int := amount - l.balance account asOf
  ⟨insertSorted
    { date := asOf
      payee := "Opening Balance"
      extID := none
      comment := ""
      postings := [⟨account, diff, currency⟩, ⟨openingBalanceAccount, -diff, currency⟩] }
    l.transactions⟩

/-- Modelled from the spec: a transaction built with only one posting is
auto-balanced against its originating account's ledger account. -/
def autoBalance (originAccount : String) (t : Transaction) : Transaction :=
  match t.postings with
  | [p] => { t with postings := [p, ⟨originAccount, -p.amount, p.currency⟩] }
  | _ => t

/-- The mutations of the ledger model exposed by the spec's contract. -/
inductive Mutation where
  | add (t : Transaction)
  | rename (old nw : String)
  | setOpening (account : String) (amount : Int) (asOf : Nat) (currency : String)

/-- Apply one mutation; a mutation whose operation fails leaves the ledger
unchanged. -/
def Ledger.apply (l : Ledger) (m : Mutation) : Ledger :=
  match m with
  | .add t =>
    match l.AddTransaction t with
    | .ok l2 => l2
    | .error _ => l
  | .rename old nw =>
    match l.UpdateAccount old nw with
    | .ok l2 => l2
    | .error _ => l
  | .setOpening account amount asOf currency =>
    l.SetOpeningBalance account amount asOf currency

end ledger

namespace directconnect

/-- Go's `accountType` is an `int`. -/
abbrev accountType : Type := Int

/-- `CheckingType accountType = iota + 1`. -/
def CheckingType : accountType := 1

/-- `SavingsType` follows `CheckingType` in the iota block. -/
def SavingsType : accountType := 2

/-- ASCII fragment of Go's rune-wise upper-casing: lowercase ASCII letters
are shifted to uppercase, all other characters kept. -/
def charToUpper (c : Char) : Char :=
  if 97 ≤ c.toNat ∧ c.toNat ≤ 122 then Char.ofNat (c.toNat - 32) else c

/-- `strings.ToUpper`, modelled rune-wise on `List Char`. -/
def toUpper (s : List Char) : List Char :=
  s.map charToUpper

/-- `accountType.String`: `CheckingType` prints "CHECKING", `SavingsType`
prints "SAVINGS", every other value prints "". -/
def accountTypeString (a : accountType) : List Char :=
  if a = CheckingType then "CHECKING".data
  else if a = SavingsType then "SAVINGS".data
  else "".data

/-- `ParseAccountType` upper-cases its input and matches it against the
`String` forms of `CheckingType` and `SavingsType`, returning 0 otherwise. -/
def ParseAccountType (s : List Char) : accountType :=
  if toUpper s = accountTypeString CheckingType then CheckingType
  else if toUpper s = accountTypeString SavingsType then SavingsType
  else 0

end directconnect

namespace rules

/-- A categorization rule: an ordered match predicate on the payee /
description, plus the category account (`account2`) and comment to assign
on match. Modelled from the spec (the `rules` package source is not in the
provided tree); the match predicate itself (case-insensitive substring or
pattern) is kept abstract as a boolean function. -/
structure Rule where
  pattern : String → Bool
  account2 : String
  comment : String

/-- The default category account used when no rule matches; the spec calls
it the default "unknown" / "unassigned" category. -/
def unknownAccount : String := "uncategorized"

/-- Modelled from the spec: `Categorize` iterates rules in declared (file)
order; the first predicate match determines the category account and
comment; no match yields the default unknown category with no error. (The
`rules` package source is not in the provided tree.) -/
def Categorize (rs : List Rule) (payee : String) : String × String :=
  match rs with
  | [] => (unknownAccount, "")
  | r :: rest => if r.pattern payee then (r.account2, r.comment) else Categorize rest payee

end rules

namespace reconcile

open ledger rules

/-- A raw statement transaction in canonical form: date, payee, signed
amount, currency, and a stable external id when the source protocol
supplied one. Modelled from the spec. -/
structure RawTransaction where
  date : Nat
  payee : String
  amount : Int
  currency : String
  extID : Option String
deriving DecidableEq, Repr

/-- Does the transaction have a posting to this account? -/
def postsTo (acct : String) (t : Transaction) : Prop :=
  ∃ p ∈ t.postings, p.account = acct

instance (acct : String) (t : Transaction) : Decidable (postsTo acct t) := by
  unfold postsTo; infer_instance

/-- Heuristic duplicate match, modelled from the spec: same account, same
date (exact), same signed amount, same payee. -/
def heuristicMatch (acct : String) (r : RawTransaction) (t : Transaction) : Prop :=
  t.date = r.date ∧ t.payee = r.payee ∧ ∃ p ∈ t.postings, p.account = acct ∧ p.amount = r.amount

instance (acct : String) (r : RawTransaction) (t : Transaction) :
    Decidable (heuristicMatch acct r t) := by
  unfold heuristicMatch; infer_instance

/-- Deduplication test, modelled from the spec: with an external id, a raw
transaction is a duplicate when some ledger transaction already carries
that id on a posting to this account; without one, fall back to the
heuristic match. -/
def isDuplicate (l : Ledger) (acct : String) (r : RawTransaction) : Prop :=
  match r.extID with
  | some id => ∃ t ∈ l.transactions, t.extID = some id ∧ postsTo acct t
  | none => ∃ t ∈ l.transactions, heuristicMatch acct r t

instance (l : Ledger) (acct : String) (r : RawTransaction) :
    Decidable (isDuplicate l acct r) := by
  unfold isDuplicate
  cases r.extID <;> infer_instance

/-- Build the ledger transaction for a non-duplicate raw transaction,
modelled from the spec: posting 1 is the account's ledger name with the
signed amount; posting 2 and the comment come from the rule engine,
balancing the two. -/
def buildTransaction (rs : List Rule) (acct : String) (r : RawTransaction) : Transaction :=
  let cat := Categorize rs r.payee
  { date := r.date
    payee := r.payee
    extID := r.extID
    comment := cat.2
    postings := [⟨acct, r.amount, r.currency⟩, ⟨cat.1, -r.amount, r.currency⟩] }

/-- Insertion sort by date (stable), used to return the new transactions in
chronological order. -/
def sortByDate (ts : List Transaction) : List Transaction :=
  ts.foldr insertSorted []

/-- Modelled from the spec: `Reconcile(existingLedger, account,
rawTransactions)` skips duplicates against the existing ledger, builds a
balanced two-posting transaction for every non-duplicate via the rule
engine, and returns the new transactions in chronological order without
mutating the passed ledger. (The reconciliation source is not in the
provided tree.) -/
def Reconcile (l : Ledger) (rs : List Rule) (acct : String)
    (raws : List RawTransaction) : List Transaction :=
  sortByDate ((raws.filter (fun r => decide (¬ isDuplicate l acct r))).map
    (buildTransaction rs acct))

/-- The caller-side commit of reconciled transactions into the ledger:
each new transaction is added through `AddTransaction` (a failing add
leaves the ledger unchanged). -/
def commit (l : Ledger) (ts : List Transaction) : Ledger :=
  ts.foldl (fun acc t => acc.apply (Mutation.add t)) l

end reconcile

namespace direct

/-- `direct.Config`: the OFX client configuration fields used by
`ValidateConnector` and `addSignonRequest`. -/
structure Config where
  appID : String
  appVersion : String
  ofxVersion : String
  clientID : String
deriving DecidableEq, Repr

/-- A `direct.Connector`: institution identity plus URL, credentials and
client config (the `directConnect` struct's data). -/
structure Connector where
  instDescription : String
  instFID : String
  instOrg : String
  url : String
  username : String
  password : String
  config : Config
deriving DecidableEq, Repr

/-- `ofxAuthFailed = 15500`. -/
def ofxAuthFailed : Int := 15500

/-- The errors `Statement` / `fetchTransactions` can produce. Distinct
constructors model Go's distinct error values: `errAuthFailed` is the
sentinel `ErrAuthFailed`; every other constructor wraps an error built or
propagated at that step (external errors carry their message). -/
inductive FetchError where
  | errAuthFailed
  | requestorFailed (msg : String)
  | invalidStatementQuery
  | transportFailed (msg : String)
  | codeMeaningFailed (msg : String)
  | nonzeroSignonStatus (code : Int) (meaning message : String)
  | parseFailed (msg : String)
  | clientSetupFailed (msg : String)
deriving DecidableEq, Repr

/-- An `ofxgo` statement request's fields, as filled by
`generateBankStatement`. -/
structure StatementRequest where
  trnUID : String
  bankID : String
  acctID : String
  acctType : String
  dtStart : Nat
  dtEnd : Nat
  includeTxns : Bool
deriving DecidableEq, Repr

/-- An `ofxgo.SignonRequest`'s fields set by `addSignonRequest`. -/
structure SignonRequest where
  clientUID : String
  org : String
  fid : String
  userID : String
  userPass : String
deriving DecidableEq, Repr

/-- The parts of an `ofxgo.Request` the embedded code reads or writes. -/
structure Request where
  url : String
  signon : SignonRequest
  bank : List StatementRequest
  creditCard : List StatementRequest
deriving DecidableEq, Repr

/-- Go's zero-valued `var query ofxgo.Request`. -/
def emptyRequest : Request :=
  { url := "", signon := ⟨"", "", "", "", ""⟩, bank := [], creditCard := [] }

/-- An `ofxgo` signon status: code and message. The code's `CodeMeaning`
lookup is an external library function, passed as a parameter below. -/
structure SignonStatus where
  code : Int
  message : String
deriving DecidableEq, Repr

/-- The parts of an `ofxgo.Response` the embedded code reads; the message
bodies consumed by the parser are kept abstract. -/
structure Response where
  signonStatus : SignonStatus
  body : String
deriving DecidableEq, Repr

/-- A `Requestor` annotates the request with statement requests for a date
range, or fails; Go mutates the request in place, modelled by returning
the updated request. -/
abbrev Requestor := Request → Nat → Nat → Except String Request

/-- The `for _, r := range requestors` loop of `fetchTransactions`:
apply each requestor in order, stopping at the first error. -/
def applyRequestors (start endT : Nat) : List Requestor → Request → Except String Request
  | [], q => .ok q
  | r :: rest, q =>
    match r q start endT with
    | .error e => .error e
    | .ok q2 => applyRequestors start endT rest q2

/-- `addSignonRequest`: set the request URL and signon fields from the
connector. -/
def addSignonRequest (connector : Connector) (req : Request) : Request :=
  { req with
      url := connector.url
      signon :=
        { clientUID := connector.config.clientID
          org := connector.instOrg
          fid := connector.instFID
          userID := connector.username
          userPass := connector.password } }

/-- `fetchTransactions`, translated from the Go source: build the query via
the requestors, reject a query with no statement requests, add the signon
request, perform the request, then branch on the signon status code:
`ofxAuthFailed` (15500) yields `ErrAuthFailed`, any other nonzero code
yields a generic nonzero-status error (after resolving the code's meaning),
and a zero code hands the response to the transaction parser. -/
def fetchTransactions (connector : Connector) (start endT : Nat)
    (requestors : List Requestor)
    (doRequest : Request → Except String Response)
    (codeMeaning : Int → Except String String)
    (parse : Response → Except String (List ledger.Transaction)) :
    Except FetchError (List ledger.Transaction) :=
  match applyRequestors start endT requestors emptyRequest with
  | .error e => .error (.requestorFailed e)
  | .ok query =>
    if query.bank.length = 0 ∧ query.creditCard.length = 0 then
      .error .invalidStatementQuery
    else
      match doRequest (addSignonRequest connector query) with
      | .error e => .error (.transportFailed e)
      | .ok response =>
        if response.signonStatus.code ≠ 0 then
          if response.signonStatus.code = ofxAuthFailed then
            .error .errAuthFailed
          else
            match codeMeaning response.signonStatus.code with
            | .error e => .error (.codeMeaningFailed e)
            | .ok meaning =>
              .error (.nonzeroSignonStatus response.signonStatus.code meaning
                response.signonStatus.message)
        else
          match parse response with
          | .error e => .error (.parseFailed e)
          | .ok txns => .ok txns

/-- The scheme and hostname of a parsed URL, the parts `ValidateConnector`
reads from `net/url.Parse`'s result. -/
structure URLParts where
  scheme : String
  hostname : String
deriving DecidableEq, Repr

/-- The external collaborators of `ValidateConnector`, kept abstract:
`model.ValidateInstitution` (institution field validation, not in the
provided tree), `net/url.Parse`, `IsLocalhostTestURL` (not in the provided
tree), and `ofxgo.NewOfxVersion` (returning `some` error message exactly
when the version string does not parse). -/
structure ValidateEnv where
  validateInstitution : Connector → Option String
  parseURL : String → Except String URLParts
  isLocalhostTestURL : String → Bool
  newOfxVersionError : String → Option String

/-- One conditionally recorded error of the `sErrors.Errors` accumulator:
`ErrIf(cond, msg)` appends `msg` when `cond` holds. -/
def condErr (p : Prop) [Decidable p] (msg : String) : List String :=
  if p then [msg] else []

/-- `AddErr`: append an error when present. -/
def optErr : Option String → List String
  | some m => [m]
  | none => []

/-- `ValidateConnector`, translated from the Go source. The
`sErrors.Errors` accumulator only ever appends, so the recorded errors are
the in-order concatenation of each check's contribution; the result is the
final error list, empty exactly when `ErrOrNil()` returns nil (the
connector is accepted). A nil connector is modelled as `none`. -/
def ValidateConnector (env : ValidateEnv) : Option Connector → List String
  | none => ["Direct connect must not be empty"]
  | some c =>
    optErr (env.validateInstitution c) ++
    condErr (c.url = "") "Institution URL must not be empty" ++
    (match env.parseURL c.url with
     | .error m => ["Institution URL is malformed: " ++ m]
     | .ok u =>
       condErr (u.scheme ≠ "https" ∧ u.hostname ≠ "localhost")
         "Institution URL is required to use HTTPS") ++
    condErr (c.username = "") "Institution username must not be empty" ++
    condErr (c.password = "" ∧ ¬ env.isLocalhostTestURL c.url)
      "Institution password must not be empty" ++
    condErr (c.config.appID = "") "Institution app ID must not be empty" ++
    condErr (c.config.appVersion = "") "Institution app version must not be empty" ++
    (if c.config.ofxVersion = "" then
      ["Institution OFX version must not be empty"]
     else
      optErr (env.newOfxVersionError c.config.ofxVersion))

end direct

namespace server

/-- HTTP status codes used by the handlers. -/
def StatusOK : Nat := 200
/-- 204 No Content. -/
def StatusNoContent : Nat := 204
/-- 400 Bad Request. -/
def StatusBadRequest : Nat := 400
/-- 401 Unauthorized. -/
def StatusUnauthorized : Nat := 401
/-- 404 Not Found. -/
def StatusNotFound : Nat := 404
/-- 500 Internal Server Error. -/
def StatusInternalServerError : Nat := 500

/-- The parts of a `model.Account` the handlers read: its id, the result of
the `direct.Connector` type assertion on its institution (`none` when the
institution is not a direct connector), and whether the account value
implements `direct.Requestor`. -/
structure Account where
  id : String
  directConnector : Option direct.Connector
  isRequestor : Bool

/-- The tail of the Go `verifyAccount` handler that runs after a successful
`direct.Verify` when the submitted connector's password is empty: look up
the stored account (store failure maps to 500) and, unless the URL is a
localhost test URL, require the stored account to exist and its direct
connector to carry a non-empty password (Go's `pass` variable stays empty
when the stored institution is not a direct connector), rejecting with 400
otherwise; success is 204. -/
def verifyAccountPasswordCheck (connector : direct.Connector) (accountID : String)
    (storeGet : String → Except String (Option Account))
    (isLocalhostTestURL : String → Bool) : Nat :=
  if connector.password ≠ "" then StatusNoContent
  else
    match storeGet accountID with
    | .error _ => StatusInternalServerError
    | .ok found =>
      if isLocalhostTestURL connector.url then StatusNoContent
      else
        match found with
        | none => StatusBadRequest
        | some currentAccount =>
          match currentAccount.directConnector with
          | some cc => if cc.password = "" then StatusBadRequest else StatusNoContent
          | none => StatusBadRequest

/-- `verifyAccount`, translated from the Go handler: reject an unreadable
or invalid submitted account with 400; reject an account without direct
connect details or of a non-`Requestor` type with 400; run `direct.Verify`
and map `ErrAuthFailed` to 401 and any other verify error to 500; then run
the password check above. The outcome of `direct.Verify` and the store
lookup are parameters. -/
def verifyAccount
    (readResult : Except String Account)
    (verify : direct.Connector → Option direct.FetchError)
    (storeGet : String → Except String (Option Account))
    (isLocalhostTestURL : String → Bool) : Nat :=
  match readResult with
  | .error _ => StatusBadRequest
  | .ok account =>
    match account.directConnector with
    | none => StatusBadRequest
    | some connector =>
      if account.isRequestor = false then StatusBadRequest
      else
        match verify connector with
        | some e =>
          if e = direct.FetchError.errAuthFailed then StatusUnauthorized
          else StatusInternalServerError
        | none =>
          verifyAccountPasswordCheck connector account.id storeGet isLocalhostTestURL

/-- Replace the stored entry for `id` (the account store's `Update`). -/
def storeUpdate (store : List (String × Account)) (id : String) (a : Account) :
    List (String × Account) :=
  store.map (fun kv => if kv.1 = id then (id, a) else kv)

/-- The state the `updateAccount` handler touches: the account store, the
in-memory ledger, and the persisted ledger file's content (`none` until
written). -/
structure ServerState where
  store : List (String × Account)
  ldg : ledger.Ledger
  ledgerFile : Option ledger.Ledger

/-- `updateAccount`, translated from the Go handler: reject an unreadable
or invalid submitted account with 400; 404 when no stored account has this
id; update the account store entry; then, only when the stored and
submitted accounts' derived ledger account names differ, rename the ledger
account (failure maps to 500) and rewrite the ledger file.
`model.LedgerAccountName` (not in the provided tree) is a parameter; the
store is modelled as an association list with pure lookup and update, and
the ledger-file write as storing the written ledger. Returns the resulting
state and HTTP status (200 for gin's default success). -/
def updateAccount (ledgerAccountName : Account → String)
    (readResult : Except String Account) (s : ServerState) : ServerState × Nat :=
  match readResult with
  | .error _ => (s, StatusBadRequest)
  | .ok account =>
    match s.store.lookup account.id with
    | none => (s, StatusNotFound)
    | some currentAccount =>
      let s1 : ServerState := { s with store := storeUpdate s.store account.id account }
      let oldAccountName := ledgerAccountName currentAccount
      let newAccountName := ledgerAccountName account
      if oldAccountName ≠ newAccountName then
        match s1.ldg.UpdateAccount oldAccountName newAccountName with
        | .error _ => (s1, StatusInternalServerError)
        | .ok ldg2 => ({ s1 with ldg := ldg2, ledgerFile := some ldg2 }, StatusOK)
      else (s1, StatusOK)

/-- One sync cycle's outcome, as the background goroutine in `Run`
classifies it: no error, an error of the `ledger.Error` type (the
partial-failure composite), or any other error (all accounts failed /
persistence failed / other hard failure). -/
inductive SyncOutcome where
  | success
  | ledgerError
  | otherError
deriving DecidableEq, Repr

/-- The ticker loop of the sync goroutine in `Run`: on each tick it runs a
sync; on any error (the `ledger.Error` check is absent here) it returns,
halting the loop. Given the planned outcome of each scheduled tick, this
counts how many ticker-driven `runSync` calls execute. -/
def syncTicks : List SyncOutcome → Nat
  | [] => 0
  | o :: rest =>
    1 + (match o with
         | .success => syncTicks rest
         | .ledgerError => 0
         | .otherError => 0)

/-- The sync goroutine of `Run`, translated from the Go source: run an
initial sync, return (never starting the ticker) only when its error is NOT
a `ledger.Error`; then enter the ticker loop. Given the planned outcome of
the initial sync followed by each scheduled tick, this counts how many
`runSync` calls execute in total. -/
def syncGoroutine : List SyncOutcome → Nat
  | [] => 0
  | o :: rest =>
    1 + (match o with
         | .otherError => 0
         | .success => syncTicks rest
         | .ledgerError => syncTicks rest)

end server

/-! ## Witness fixtures: concrete inputs used to instantiate the theorems -/

namespace fixtures

/-- A balanced two-posting transaction. -/
def coffeeTx : ledger.Transaction :=
  { date := 3
    payee := "Coffee Shop"
    extID := some "txn-17"
    comment := ""
    postings := [⟨"assets:bank:checking:1234", -450, "USD"⟩, ⟨"expenses:coffee", 450, "USD"⟩] }

/-- A one-element ledger containing `coffeeTx`. -/
def smallLedger : ledger.Ledger := ⟨[coffeeTx]⟩

/-- A single posting, for the auto-balance witness. -/
def lonePosting : ledger.Posting := ⟨"expenses:groceries", 2599, "USD"⟩

/-- A transaction with only one posting. -/
def loneTx : ledger.Transaction :=
  { date := 5, payee := "Grocery Store", extID := none, comment := "", postings := [lonePosting] }

/-- The spec's example rule A: matches "Grocery Store", assigns Food. -/
def groceryRule : rules.Rule := ⟨fun s => s == "Grocery Store", "expenses:food", ""⟩

/-- The spec's example rule B: matches everything, assigns Other. -/
def catchAllRule : rules.Rule := ⟨fun _ => true, "expenses:other", ""⟩

/-- A fully populated direct connector. -/
def sampleConnector : direct.Connector :=
  { instDescription := "First Bank"
    instFID := "3001"
    instOrg := "FB"
    url := "https://ofx.example.com"
    username := "jdoe"
    password := "hunter2"
    config := { appID := "QWIN", appVersion := "2500", ofxVersion := "102", clientID := "" } }

/-- The same connector with an empty username. -/
def noUserConnector : direct.Connector := { sampleConnector with username := "" }

/-- A bank statement request. -/
def sampleStatementRequest : direct.StatementRequest :=
  ⟨"uid-1", "111000025", "1234", "CHECKING", 0, 30, true⟩

/-- A requestor that appends one bank statement request. -/
def sampleRequestor : direct.Requestor :=
  fun q _ _ => .ok { q with bank := q.bank ++ [sampleStatementRequest] }

/-- The request `sampleRequestor` builds from the empty request. -/
def sampleQuery : direct.Request :=
  { direct.emptyRequest with bank := [sampleStatementRequest] }

/-- A response whose signon status code is the authentication failure
code 15500. -/
def authFailedResponse : direct.Response := ⟨⟨15500, "Signon invalid"⟩, ""⟩

/-- A transport returning `authFailedResponse`. -/
def sampleDoRequest : direct.Request → Except String direct.Response :=
  fun _ => .ok authFailedResponse

/-- A code-meaning table stub. -/
def sampleCodeMeaning : Int → Except String String := fun _ => .ok "ERROR"

/-- A parser returning no transactions. -/
def sampleParse : direct.Response → Except String (List ledger.Transaction) :=
  fun _ => .ok []

/-- A concrete validation environment for `ValidateConnector`. -/
def sampleValidateEnv : direct.ValidateEnv :=
  { validateInstitution := fun _ => none
    parseURL := fun u =>
      if u = "https://ofx.example.com" then .ok ⟨"https", "ofx.example.com"⟩
      else .error "parse failure"
    isLocalhostTestURL := fun u => u == "http://localhost:8000"
    newOfxVersionError := fun v => if v = "102" then none else some "invalid OFX version" }

/-- A server account wrapping `sampleConnector`. -/
def sampleAccount : server.Account := ⟨"acct-1", some sampleConnector, true⟩

/-- A stored variant of the account under the same id. -/
def storedAccount : server.Account := ⟨"acct-1", some noUserConnector, true⟩

/-- A verify outcome: authentication failed. -/
def authFailVerify : direct.Connector → Option direct.FetchError :=
  fun _ => some direct.FetchError.errAuthFailed

/-- An account store lookup finding nothing. -/
def emptyStoreGet : String → Except String (Option server.Account) := fun _ => .ok none

/-- No URL is a localhost test URL. -/
def noLocal : String → Bool := fun _ => false

/-- A server state holding `storedAccount` and `smallLedger`. -/
def sampleServerState : server.ServerState :=
  { store := [("acct-1", storedAccount)], ldg := smallLedger, ledgerFile := none }

end fixtures

/-! ## Theorems -/

namespace ledger

theorem mem_insertSorted {t u : Transaction} {ts : List Transaction} :
    u ∈ insertSorted t ts ↔ u = t ∨ u ∈ ts := by
  induction ts with
  | nil => simp [insertSorted]
  | cons v rest ih =>
    simp only [insertSorted]
    split
    · simp [or_assoc]
    · simp only [List.mem_cons, ih]
      tauto

theorem amount_rename (old nw : String) (p : Posting) :
    (Posting.rename old nw p).amount = p.amount := by
  unfold Posting.rename
  split <;> rfl

theorem postingSum_rename (old nw : String) (t : Transaction) :
    (Transaction.rename old nw t).postingSum = t.postingSum := by
  unfold Transaction.postingSum Transaction.rename
  simp only [List.map_map]
  congr 1
  exact List.map_congr_left (fun p _ => amount_rename old nw p)

theorem hasAccount_iff (l : Ledger) (name : String) :
    l.hasAccount name = true ↔ ∃ t ∈ l.transactions, ∃ p ∈ t.postings, p.account = name := by
  simp [Ledger.hasAccount, List.any_eq_true]

theorem balanced_iff (t : Transaction) : t.balanced ↔ t.postingSum = 0 := Iff.rfl

/-- C1: every transaction committed to the ledger has posting amounts
summing to exactly zero: the invariant holds after every mutation of a
ledger in which it holds, and a transaction built with only one posting is
auto-balanced against its originating account's ledger account (its second
posting targets that account and the result is balanced). -/
theorem ledger_balance_invariant :
    (∀ (l : Ledger) (m : Mutation), l.balanced → (l.apply m).balanced) ∧
    (∀ (acct : String) (t : Transaction) (p : Posting), t.postings = [p] →
        (autoBalance acct t).balanced ∧
        ∃ q, (autoBalance acct t).postings = [p, q] ∧ q.account = acct ∧ q.amount = -p.amount) := by
  constructor
  · intro l m hl
    match m with
    | .add t =>
      by_cases ht : t.postingSum = 0
      · have e : l.apply (.add t) = ⟨insertSorted t l.transactions⟩ := by
          simp [Ledger.apply, Ledger.AddTransaction, ht]
        rw [e]
        intro u hu
        rcases mem_insertSorted.mp hu with rfl | hu2
        · exact ht
        · exact hl u hu2
      · have e : l.apply (.add t) = l := by
          simp [Ledger.apply, Ledger.AddTransaction, ht]
        rw [e]
        exact hl
    | .rename old nw =>
      by_cases ht : l.hasAccount old = true
      · have e : l.apply (.rename old nw) =
            ⟨l.transactions.map (Transaction.rename old nw)⟩ := by
          simp [Ledger.apply, Ledger.UpdateAccount, ht]
        rw [e]
        intro u hu
        simp only [List.mem_map] at hu
        obtain ⟨v, hv, rfl⟩ := hu
        rw [balanced_iff, postingSum_rename]
        exact hl v hv
      · have e : l.apply (.rename old nw) = l := by
          simp only [Bool.not_eq_true] at ht
          simp [Ledger.apply, Ledger.UpdateAccount, ht]
        rw [e]
        exact hl
    | .setOpening account amount asOf currency =>
      have e : l.apply (.setOpening account amount asOf currency) =
          ⟨insertSorted
            { date := asOf
              payee := "Opening Balance"
              extID := none
              comment := ""
              postings := [⟨account, amount - l.balance account asOf, currency⟩,
                ⟨openingBalanceAccount, -(amount - l.balance account asOf), currency⟩] }
            l.transactions⟩ := by
        simp [Ledger.apply, Ledger.SetOpeningBalance]
      rw [e]
      intro u hu
      rcases mem_insertSorted.mp hu with rfl | hu2
      · rw [balanced_iff]
        simp [Transaction.postingSum]
      · exact hl u hu2
  · intro acct t p hp
    have h : (autoBalance acct t).postings = [p, ⟨acct, -p.amount, p.currency⟩] := by
      unfold autoBalance
      rw [hp]
    refine ⟨?_, ⟨acct, -p.amount, p.currency⟩, h, rfl, rfl⟩
    rw [balanced_iff, Transaction.postingSum, h]
    simp

/-- Witness for C1: adding a balanced transaction to a balanced ledger
keeps it balanced, and the single-posting transaction is auto-balanced. -/
theorem ledger_balance_invariant_witness :
    (fixtures.smallLedger.apply (Mutation.add fixtures.coffeeTx)).balanced ∧
    (autoBalance "assets:bank:checking:1234" fixtures.loneTx).balanced :=
  ⟨ledger_balance_invariant.1 fixtures.smallLedger (Mutation.add fixtures.coffeeTx) (by decide),
   (ledger_balance_invariant.2 "assets:bank:checking:1234" fixtures.loneTx
      fixtures.lonePosting (by decide)).1⟩

/-- C7: `UpdateAccount(old, new)` renames `old` to `new` across all
historical postings when some posting references `old` (afterwards, for
distinct names, no posting references `old`), and fails with
`NotFoundError` when no posting references `old`; in that failure case the
ledger is unchanged (applying the mutation is the identity). -/
theorem UpdateAccount_renames_across_postings (l : Ledger) (old nw : String) :
    ((∀ t ∈ l.transactions, ∀ p ∈ t.postings, p.account ≠ old) →
        l.UpdateAccount old nw = .error "NotFoundError" ∧
        l.apply (Mutation.rename old nw) = l) ∧
    ((∃ t ∈ l.transactions, ∃ p ∈ t.postings, p.account = old) →
        l.UpdateAccount old nw = .ok ⟨l.transactions.map (Transaction.rename old nw)⟩) ∧
    (∀ l', l.UpdateAccount old nw = .ok l' → old ≠ nw →
        ∀ t ∈ l'.transactions, ∀ p ∈ t.postings, p.account ≠ old) := by
  refine ⟨?_, ?_, ?_⟩
  · intro hnone
    have hfalse : l.hasAccount old = false := by
      rw [Bool.eq_false_iff]
      intro htrue
      obtain ⟨t, ht, p, hpmem, hpacct⟩ := (hasAccount_iff l old).mp htrue
      exact hnone t ht p hpmem hpacct
    constructor
    · simp [Ledger.UpdateAccount, hfalse]
    · simp [Ledger.apply, Ledger.UpdateAccount, hfalse]
  · intro hsome
    have htrue : l.hasAccount old = true := (hasAccount_iff l old).mpr hsome
    simp [Ledger.UpdateAccount, htrue]
  · intro l' hok hne t ht p hpmem
    have htrue : l.hasAccount old = true := by
      by_contra hfalse
      simp [Ledger.UpdateAccount, hfalse] at hok
    rw [Ledger.UpdateAccount, if_pos htrue] at hok
    injection hok with hok
    subst hok
    simp only [List.mem_map] at ht
    obtain ⟨t0, _, rfl⟩ := ht
    simp only [Transaction.rename, List.mem_map] at hpmem
    obtain ⟨p0, _, rfl⟩ := hpmem
    unfold Posting.rename
    split
    · simpa using fun h => hne h.symm
    · assumption

/-- Witness for C7: renaming a present account succeeds with every posting
renamed; renaming an absent account fails with `NotFoundError` and leaves
the ledger unchanged. -/
theorem UpdateAccount_renames_across_postings_witness :
    fixtures.smallLedger.UpdateAccount "expenses:coffee" "expenses:drinks" =
      .ok ⟨fixtures.smallLedger.transactions.map
        (Transaction.rename "expenses:coffee" "expenses:drinks")⟩ ∧
    fixtures.smallLedger.UpdateAccount "expenses:travel" "expenses:trips" =
      .error "NotFoundError" ∧
    fixtures.smallLedger.apply (Mutation.rename "expenses:travel" "expenses:trips") =
      fixtures.smallLedger :=
  ⟨(UpdateAccount_renames_across_postings fixtures.smallLedger
      "expenses:coffee" "expenses:drinks").2.1 (by decide),
   ((UpdateAccount_renames_across_postings fixtures.smallLedger
      "expenses:travel" "expenses:trips").1 (by decide)).1,
   ((UpdateAccount_renames_across_postings fixtures.smallLedger
      "expenses:travel" "expenses:trips").1 (by decide)).2⟩

end ledger

namespace rules

/-- C6: `Categorize` is deterministic (it is a function of the rule list
and the transaction's payee) and order-dependent: rules are evaluated in
declared order and the first matching rule determines the assigned
account and comment; when no rule matches, the result is the default
unknown category with the empty comment, and no error is possible (the
function is total). -/
theorem Categorize_first_match_or_default (rs : List Rule) (payee : String) :
    (∀ pre r post, rs = pre ++ r :: post →
        (∀ r2 ∈ pre, r2.pattern payee = false) → r.pattern payee = true →
        Categorize rs payee = (r.account2, r.comment)) ∧
    ((∀ r ∈ rs, r.pattern payee = false) →
        Categorize rs payee = (unknownAccount, "")) := by
  constructor
  · intro pre r post hr hpre hmatch
    subst hr
    induction pre with
    | nil => simp [Categorize, hmatch]
    | cons a rest ih =>
      have ha := hpre a (by simp)
      simp only [List.cons_append, Categorize, ha, Bool.false_eq_true, if_false]
      exact ih (fun r2 h2 => hpre r2 (by simp [h2]))
  · intro hnone
    induction rs with
    | nil => rfl
    | cons a rest ih =>
      have ha := hnone a (by simp)
      simp only [Categorize, ha, Bool.false_eq_true, if_false]
      exact ih (fun r2 h2 => hnone r2 (by simp [h2]))

/-- Witness for C6: the spec's example — rules
`[A matches "Grocery Store" → Food, B matches everything → Other]` applied
to "Grocery Store" yield Food (first match wins), and a non-matching input
falls back to the default unknown category. -/
theorem Categorize_first_match_or_default_witness :
    Categorize [fixtures.groceryRule, fixtures.catchAllRule] "Grocery Store" =
      ("expenses:food", "") ∧
    Categorize [fixtures.groceryRule] "Gas Station" = (unknownAccount, "") :=
  ⟨(Categorize_first_match_or_default [fixtures.groceryRule, fixtures.catchAllRule]
      "Grocery Store").1 [] fixtures.groceryRule [fixtures.catchAllRule] rfl
      (by simp) (by decide),
   (Categorize_first_match_or_default [fixtures.groceryRule] "Gas Station").2
      (by decide)⟩

end rules

namespace reconcile

open ledger rules

theorem mem_apply_add {l : Ledger} {t t0 : Transaction}
    (h : t0 ∈ l.transactions) : t0 ∈ (l.apply (Mutation.add t)).transactions := by
  by_cases ht : t.postingSum = 0
  · have e : l.apply (.add t) = ⟨insertSorted t l.transactions⟩ := by
      simp [Ledger.apply, Ledger.AddTransaction, ht]
    rw [e]
    exact mem_insertSorted.mpr (Or.inr h)
  · have e : l.apply (.add t) = l := by
      simp [Ledger.apply, Ledger.AddTransaction, ht]
    rw [e]
    exact h

theorem self_mem_apply_add {l : Ledger} {t : Transaction} (ht : t.postingSum = 0) :
    t ∈ (l.apply (Mutation.add t)).transactions := by
  have e : l.apply (.add t) = ⟨insertSorted t l.transactions⟩ := by
    simp [Ledger.apply, Ledger.AddTransaction, ht]
  rw [e]
  exact mem_insertSorted.mpr (Or.inl rfl)

theorem mem_commit_of_mem {ts : List Transaction} {l : Ledger} {t0 : Transaction}
    (h : t0 ∈ l.transactions) : t0 ∈ (commit l ts).transactions := by
  induction ts generalizing l with
  | nil => exact h
  | cons t rest ih => exact ih (mem_apply_add h)

theorem mem_commit_of_balanced_mem {ts : List Transaction} {l : Ledger} {t : Transaction}
    (h : t ∈ ts) (ht : t.postingSum = 0) : t ∈ (commit l ts).transactions := by
  induction ts generalizing l with
  | nil => cases h
  | cons u rest ih =>
    rcases List.mem_cons.mp h with rfl | h2
    · show t ∈ (commit (l.apply (Mutation.add t)) rest).transactions
      exact mem_commit_of_mem (self_mem_apply_add ht)
    · exact ih h2

theorem mem_sortByDate {u : Transaction} {ts : List Transaction} :
    u ∈ sortByDate ts ↔ u ∈ ts := by
  induction ts with
  | nil => simp [sortByDate]
  | cons t rest ih =>
    show u ∈ insertSorted t (sortByDate rest) ↔ _
    rw [mem_insertSorted, ih]
    simp

theorem isDuplicate_mono {l l2 : Ledger} {acct : String} {r : RawTransaction}
    (hsub : ∀ t ∈ l.transactions, t ∈ l2.transactions) (h : isDuplicate l acct r) :
    isDuplicate l2 acct r := by
  unfold isDuplicate at h ⊢
  rcases hc : r.extID with _ | id <;> simp only [hc] at h ⊢
  · obtain ⟨t, ht, hm⟩ := h
    exact ⟨t, hsub t ht, hm⟩
  · obtain ⟨t, ht, hm⟩ := h
    exact ⟨t, hsub t ht, hm⟩

theorem buildTransaction_postingSum (rs : List Rule) (acct : String) (r : RawTransaction) :
    (buildTransaction rs acct r).postingSum = 0 := by
  simp [buildTransaction, Transaction.postingSum]

theorem Reconcile_eq_nil_of_all_dup {l2 : Ledger} {rs : List Rule} {acct : String}
    {raws : List RawTransaction} (h : ∀ r ∈ raws, isDuplicate l2 acct r) :
    Reconcile l2 rs acct raws = [] := by
  unfold Reconcile
  have hfilter : (raws.filter fun r => decide (¬ isDuplicate l2 acct r)) = [] := by
    rw [List.filter_eq_nil_iff]
    intro r hr
    simp [h r hr]
  rw [hfilter]
  rfl

/-- C5: `Reconcile` is idempotent — after committing the transactions of a
first run, a second run with the same raw transaction batch yields zero new
transactions: each raw transaction is recognized as a duplicate, by its
external id when it has one and by the exact date + amount + payee
heuristic otherwise. -/
theorem Reconcile_idempotent (l : Ledger) (rs : List Rule) (acct : String)
    (raws : List RawTransaction) :
    Reconcile (commit l (Reconcile l rs acct raws)) rs acct raws = [] := by
  have hdup : ∀ r ∈ raws, isDuplicate (commit l (Reconcile l rs acct raws)) acct r := by
    intro r hr
    by_cases hd : isDuplicate l acct r
    · exact isDuplicate_mono (fun t ht => mem_commit_of_mem ht) hd
    · have hmem : buildTransaction rs acct r ∈ Reconcile l rs acct raws := by
        unfold Reconcile
        rw [mem_sortByDate]
        apply List.mem_map_of_mem
        rw [List.mem_filter]
        exact ⟨hr, by simpa using hd⟩
      have hmem2 : buildTransaction rs acct r ∈
          (commit l (Reconcile l rs acct raws)).transactions :=
        mem_commit_of_balanced_mem hmem (buildTransaction_postingSum rs acct r)
      unfold isDuplicate
      rcases hc : r.extID with _ | id <;> simp only [hc]
      · refine ⟨buildTransaction rs acct r, hmem2, ?_⟩
        refine ⟨rfl, rfl, ⟨acct, r.amount, r.currency⟩, ?_, rfl, rfl⟩
        simp [buildTransaction]
      · refine ⟨buildTransaction rs acct r, hmem2, ?_, ?_⟩
        · simp [buildTransaction, hc]
        · exact ⟨⟨acct, r.amount, r.currency⟩, by simp [buildTransaction], rfl⟩
  exact Reconcile_eq_nil_of_all_dup hdup

end reconcile

namespace directconnect

theorem toNat_charToUpper_of_lower {c : Char} (h : 97 ≤ c.toNat ∧ c.toNat ≤ 122) :
    (charToUpper c).toNat = c.toNat - 32 := by
  have hv : (c.toNat - 32).isValidChar := by
    left; omega
  unfold charToUpper
  rw [if_pos h]
  unfold Char.ofNat
  rw [dif_pos hv]
  unfold Char.ofNatAux Char.toNat
  simp [UInt32.toNat, BitVec.toNat_ofNatLt]

theorem charToUpper_idem (c : Char) : charToUpper (charToUpper c) = charToUpper c := by
  by_cases h : 97 ≤ c.toNat ∧ c.toNat ≤ 122
  · have ht := toNat_charToUpper_of_lower h
    conv_lhs => rw [charToUpper]
    rw [if_neg]
    rw [ht]
    omega
  · have hc : charToUpper c = c := by
      unfold charToUpper
      rw [if_neg h]
    rw [hc, hc]

theorem toUpper_idem (s : List Char) : toUpper (toUpper s) = toUpper s := by
  unfold toUpper
  rw [List.map_map]
  exact List.map_congr_left (fun c _ => charToUpper_idem c)

/-- C10: `ParseAccountType` and `accountType.String` round-trip on
`CheckingType` and `SavingsType`; `ParseAccountType` is case-insensitive
(it agrees with itself on the upper-cased input); every input whose
upper-casing is neither "CHECKING" nor "SAVINGS" parses to the zero
account type, whose `String` form is empty. -/
theorem ParseAccountType_round_trip :
    (∀ a : accountType, (a = CheckingType ∨ a = SavingsType) →
        ParseAccountType (accountTypeString a) = a) ∧
    (∀ s : List Char, ParseAccountType s = ParseAccountType (toUpper s)) ∧
    (∀ s : List Char, toUpper s ≠ accountTypeString CheckingType →
        toUpper s ≠ accountTypeString SavingsType → ParseAccountType s = 0) ∧
    accountTypeString 0 = "".data := by
  refine ⟨?_, ?_, ?_, by decide⟩
  · rintro a (rfl | rfl) <;> decide
  · intro s
    unfold ParseAccountType
    rw [toUpper_idem]
  · intro s h1 h2
    unfold ParseAccountType
    rw [if_neg h1, if_neg h2]

/-- Witness for C10 at concrete inputs. -/
theorem ParseAccountType_round_trip_witness :
    ParseAccountType (accountTypeString CheckingType) = CheckingType ∧
    ParseAccountType "savings".data = ParseAccountType (toUpper "savings".data) ∧
    ParseAccountType "MONEYMRKT".data = 0 :=
  ⟨ParseAccountType_round_trip.1 CheckingType (Or.inl rfl),
   ParseAccountType_round_trip.2.1 "savings".data,
   ParseAccountType_round_trip.2.2.1 "MONEYMRKT".data (by decide) (by decide)⟩

end directconnect

namespace direct

/-- C3: when the statement query has been built (requestors succeeded and
produced at least one statement request) and the transport returned a
response, `fetchTransactions` returns `ErrAuthFailed` if and only if the
response's signon status code is 15500; any other nonzero signon status
code yields an error different from `ErrAuthFailed`; a zero status code
yields the parsed transaction list. -/
theorem fetchTransactions_authFailed_iff
    (connector : Connector) (start endT : Nat) (requestors : List Requestor)
    (doRequest : Request → Except String Response)
    (codeMeaning : Int → Except String String)
    (parse : Response → Except String (List ledger.Transaction))
    (query : Request) (response : Response)
    (hq : applyRequestors start endT requestors emptyRequest = .ok query)
    (hne : ¬(query.bank.length = 0 ∧ query.creditCard.length = 0))
    (hresp : doRequest (addSignonRequest connector query) = .ok response) :
    (fetchTransactions connector start endT requestors doRequest codeMeaning parse =
        .error FetchError.errAuthFailed ↔ response.signonStatus.code = 15500) ∧
    (response.signonStatus.code ≠ 0 → response.signonStatus.code ≠ 15500 →
        ∃ e, fetchTransactions connector start endT requestors doRequest codeMeaning parse =
          .error e ∧ e ≠ FetchError.errAuthFailed) ∧
    (response.signonStatus.code = 0 → ∀ txns, parse response = .ok txns →
        fetchTransactions connector start endT requestors doRequest codeMeaning parse =
          .ok txns) := by
  refine ⟨?_, ?_, ?_⟩
  · unfold fetchTransactions
    simp only [hq]
    rw [if_neg hne]
    simp only [hresp]
    by_cases hz : response.signonStatus.code = 0
    · rw [if_neg (not_not_intro hz)]
      constructor
      · intro hcontra
        rcases hp : parse response with e | txns <;> simp [hp] at hcontra
      · intro h15
        rw [hz] at h15
        exact absurd h15 (by decide)
    · rw [if_pos hz]
      by_cases h15 : response.signonStatus.code = ofxAuthFailed
      · rw [if_pos h15]
        exact iff_of_true rfl h15
      · rw [if_neg h15]
        refine iff_of_false ?_ h15
        rcases hcm : codeMeaning response.signonStatus.code with e | meaning <;>
          simp [hcm]
  · intro hz h15
    unfold fetchTransactions
    simp only [hq]
    rw [if_neg hne]
    simp only [hresp]
    rw [if_pos hz, if_neg (show response.signonStatus.code ≠ ofxAuthFailed from h15)]
    rcases hcm : codeMeaning response.signonStatus.code with e | meaning <;> simp [hcm]
  · intro hz txns hp
    unfold fetchTransactions
    simp only [hq]
    rw [if_neg hne]
    simp only [hresp]
    rw [if_neg (not_not_intro hz)]
    simp [hp]

/-- Witness for C3: with a requestor that adds one bank statement request
and a transport answering with signon status code 15500, the fetch returns
`ErrAuthFailed`; with the same query answered by status code 0, it returns
the parsed (empty) transaction list. -/
theorem fetchTransactions_authFailed_iff_witness :
    fetchTransactions fixtures.sampleConnector 0 30 [fixtures.sampleRequestor]
      fixtures.sampleDoRequest fixtures.sampleCodeMeaning fixtures.sampleParse =
      .error FetchError.errAuthFailed :=
  (fetchTransactions_authFailed_iff fixtures.sampleConnector 0 30 [fixtures.sampleRequestor]
      fixtures.sampleDoRequest fixtures.sampleCodeMeaning fixtures.sampleParse
      fixtures.sampleQuery fixtures.authFailedResponse rfl (by decide) rfl).1.mpr rfl

theorem condErr_eq_nil {p : Prop} [Decidable p] {msg : String} :
    condErr p msg = [] ↔ ¬p := by
  unfold condErr
  split <;> simp_all

theorem mem_condErr_self {p : Prop} [Decidable p] {msg : String} (h : p) :
    msg ∈ condErr p msg := by
  simp [condErr, h]

theorem optErr_eq_nil {o : Option String} : optErr o = [] ↔ o = none := by
  cases o <;> simp [optErr]

/-- C9: `ValidateConnector` accepts a connector only if its institution URL
is non-empty, parses, and uses the https scheme or has hostname localhost;
its username is non-empty; its password is non-empty unless the URL is a
localhost test URL; and its app ID, app version and OFX version are
non-empty with a parseable OFX version. When a condition is violated, the
returned error list contains that condition's message. (Acceptance also
requires `model.ValidateInstitution` to pass, an extra check the claim
does not mention; it does not weaken the "only if".) -/
theorem ValidateConnector_accepts_only_valid (env : ValidateEnv) (c : Connector) :
    (ValidateConnector env (some c) = [] →
        c.url ≠ "" ∧
        (∃ u, env.parseURL c.url = .ok u ∧
          (u.scheme = "https" ∨ u.hostname = "localhost")) ∧
        c.username ≠ "" ∧
        (c.password ≠ "" ∨ env.isLocalhostTestURL c.url = true) ∧
        c.config.appID ≠ "" ∧ c.config.appVersion ≠ "" ∧
        c.config.ofxVersion ≠ "" ∧
        env.newOfxVersionError c.config.ofxVersion = none) ∧
    (∀ m, env.parseURL c.url = .error m →
        ("Institution URL is malformed: " ++ m) ∈ ValidateConnector env (some c)) ∧
    (∀ u, env.parseURL c.url = .ok u → u.scheme ≠ "https" → u.hostname ≠ "localhost" →
        "Institution URL is required to use HTTPS" ∈ ValidateConnector env (some c)) ∧
    (c.username = "" →
        "Institution username must not be empty" ∈ ValidateConnector env (some c)) ∧
    (c.password = "" → env.isLocalhostTestURL c.url = false →
        "Institution password must not be empty" ∈ ValidateConnector env (some c)) ∧
    (c.config.appID = "" →
        "Institution app ID must not be empty" ∈ ValidateConnector env (some c)) ∧
    (c.config.appVersion = "" →
        "Institution app version must not be empty" ∈ ValidateConnector env (some c)) ∧
    (c.config.ofxVersion = "" →
        "Institution OFX version must not be empty" ∈ ValidateConnector env (some c)) ∧
    (∀ m, c.config.ofxVersion ≠ "" → env.newOfxVersionError c.config.ofxVersion = some m →
        m ∈ ValidateConnector env (some c)) := by
  refine ⟨?_, ?_, ?_, ?_, ?_, ?_, ?_, ?_, ?_⟩
  · intro hacc
    unfold ValidateConnector at hacc
    simp only [List.append_assoc, List.append_eq_nil] at hacc
    obtain ⟨hinst, hurl, hmatch, huser, hpass, happID, happVer, hofx⟩ := hacc
    refine ⟨condErr_eq_nil.mp hurl, ?_, condErr_eq_nil.mp huser, ?_,
      condErr_eq_nil.mp happID, condErr_eq_nil.mp happVer, ?_⟩
    · rcases hp : env.parseURL c.url with m | u <;> simp only [hp] at hmatch
      · simp at hmatch
      · have h2 := condErr_eq_nil.mp hmatch
        rw [not_and_or, not_not, not_not] at h2
        exact ⟨u, rfl, h2⟩
    · have h2 := condErr_eq_nil.mp hpass
      rw [not_and_or, not_not] at h2
      exact h2
    · by_cases hv : c.config.ofxVersion = ""
      · rw [if_pos hv] at hofx
        simp at hofx
      · rw [if_neg hv] at hofx
        exact ⟨hv, optErr_eq_nil.mp hofx⟩
  · intro m hp
    unfold ValidateConnector
    simp only [hp, List.append_assoc, List.mem_append]
    refine Or.inr (Or.inr (Or.inl ?_))
    simp
  · intro u hp hs hh
    unfold ValidateConnector
    simp only [hp, List.append_assoc, List.mem_append]
    exact Or.inr (Or.inr (Or.inl (mem_condErr_self ⟨hs, hh⟩)))
  · intro huser
    unfold ValidateConnector
    simp only [List.append_assoc, List.mem_append]
    exact Or.inr (Or.inr (Or.inr (Or.inl (mem_condErr_self huser))))
  · intro hpass hlocal
    unfold ValidateConnector
    simp only [List.append_assoc, List.mem_append]
    refine Or.inr (Or.inr (Or.inr (Or.inr (Or.inl
      (mem_condErr_self ⟨hpass, by simp [hlocal]⟩)))))
  · intro happ
    unfold ValidateConnector
    simp only [List.append_assoc, List.mem_append]
    exact Or.inr (Or.inr (Or.inr (Or.inr (Or.inr (Or.inl (mem_condErr_self happ))))))
  · intro happ
    unfold ValidateConnector
    simp only [List.append_assoc, List.mem_append]
    exact Or.inr (Or.inr (Or.inr (Or.inr (Or.inr (Or.inr (Or.inl
      (mem_condErr_self happ)))))))
  · intro hv
    unfold ValidateConnector
    simp only [List.append_assoc, List.mem_append]
    refine Or.inr (Or.inr (Or.inr (Or.inr (Or.inr (Or.inr (Or.inr ?_))))))
    rw [if_pos hv]
    simp
  · intro m hv hm
    unfold ValidateConnector
    simp only [List.append_assoc, List.mem_append]
    refine Or.inr (Or.inr (Or.inr (Or.inr (Or.inr (Or.inr (Or.inr ?_))))))
    rw [if_neg hv, hm]
    simp [optErr]

/-- Witness for C9: the fully populated connector is accepted (so all the
conditions hold of it), and dropping the username yields the username
message in the error list. -/
theorem ValidateConnector_accepts_only_valid_witness :
    fixtures.sampleConnector.url ≠ "" ∧
    "Institution username must not be empty" ∈
      ValidateConnector fixtures.sampleValidateEnv (some fixtures.noUserConnector) :=
  ⟨((ValidateConnector_accepts_only_valid fixtures.sampleValidateEnv
      fixtures.sampleConnector).1 (by decide)).1,
   (ValidateConnector_accepts_only_valid fixtures.sampleValidateEnv
      fixtures.noUserConnector).2.2.2.1 rfl⟩

end direct

namespace server

theorem verifyAccountPasswordCheck_ne_unauthorized (connector : direct.Connector)
    (accountID : String) (storeGet : String → Except String (Option Account))
    (isLocal : String → Bool) :
    verifyAccountPasswordCheck connector accountID storeGet isLocal ≠ StatusUnauthorized := by
  unfold verifyAccountPasswordCheck
  repeat' split
  all_goals decide

/-- C4: the `verifyAccount` handler maps errors to HTTP status codes by
error class: a validation failure of the submitted account yields 400 Bad
Request; given a valid direct-connect account, the handler responds 401
Unauthorized exactly when `direct.Verify` fails with `ErrAuthFailed`; any
other verify error, and an account-store failure during the password
check, yield 500 Internal Server Error. -/
theorem verifyAccount_status_mapping
    (readResult : Except String Account)
    (verify : direct.Connector → Option direct.FetchError)
    (storeGet : String → Except String (Option Account))
    (isLocal : String → Bool) :
    (∀ msg, readResult = .error msg →
        verifyAccount readResult verify storeGet isLocal = StatusBadRequest) ∧
    (∀ account connector, readResult = .ok account →
        account.directConnector = some connector → account.isRequestor = true →
        ((verifyAccount readResult verify storeGet isLocal = StatusUnauthorized ↔
            verify connector = some direct.FetchError.errAuthFailed) ∧
         (∀ e, verify connector = some e → e ≠ direct.FetchError.errAuthFailed →
            verifyAccount readResult verify storeGet isLocal = StatusInternalServerError) ∧
         (∀ msg, verify connector = none → connector.password = "" →
            storeGet account.id = .error msg →
            verifyAccount readResult verify storeGet isLocal =
              StatusInternalServerError))) := by
  constructor
  · intro msg hread
    simp [verifyAccount, hread]
  · intro account connector hread hconn hreq
    have hbase : verifyAccount readResult verify storeGet isLocal =
        (match verify connector with
         | some e =>
           if e = direct.FetchError.errAuthFailed then StatusUnauthorized
           else StatusInternalServerError
         | none =>
           verifyAccountPasswordCheck connector account.id storeGet isLocal) := by
      unfold verifyAccount
      simp only [hread, hconn, hreq]
      rfl
    refine ⟨?_, ?_, ?_⟩
    · rw [hbase]
      rcases hv : verify connector with _ | e
      · exact iff_of_false
          (verifyAccountPasswordCheck_ne_unauthorized connector account.id storeGet isLocal)
          (by simp)
      · show (if e = direct.FetchError.errAuthFailed then StatusUnauthorized
            else StatusInternalServerError) = StatusUnauthorized ↔
            some e = some direct.FetchError.errAuthFailed
        by_cases he : e = direct.FetchError.errAuthFailed
        · rw [if_pos he, he]
          exact iff_of_true rfl rfl
        · rw [if_neg he]
          exact iff_of_false (by decide) (by simp [he])
    · intro e hv he
      rw [hbase, hv]
      simp only [if_neg he]
    · intro msg hv hpass hstore
      rw [hbase, hv]
      unfold verifyAccountPasswordCheck
      rw [if_neg (not_not_intro hpass), hstore]

/-- Witness for C4: a valid direct-connect account whose verification fails
with `ErrAuthFailed` receives 401 Unauthorized. -/
theorem verifyAccount_status_mapping_witness :
    verifyAccount (.ok fixtures.sampleAccount) fixtures.authFailVerify
      fixtures.emptyStoreGet fixtures.noLocal = StatusUnauthorized :=
  ((verifyAccount_status_mapping (.ok fixtures.sampleAccount) fixtures.authFailVerify
      fixtures.emptyStoreGet fixtures.noLocal).2 fixtures.sampleAccount
      fixtures.sampleConnector rfl rfl rfl).1.mpr rfl

/-- C8: in the `updateAccount` handler, when the submitted and stored
accounts derive the same ledger account name, the handler leaves the
in-memory ledger and the ledger file untouched and only updates the
account store entry; conversely, whenever the resulting ledger or ledger
file differs from the initial one, the two derived names differed. -/
theorem updateAccount_frame (lan : Account → String)
    (readResult : Except String Account) (s : ServerState) :
    (∀ account currentAccount, readResult = .ok account →
        s.store.lookup account.id = some currentAccount →
        lan account = lan currentAccount →
        updateAccount lan readResult s =
          ({ s with store := storeUpdate s.store account.id account }, StatusOK)) ∧
    (∀ s2 code, updateAccount lan readResult s = (s2, code) →
        s2.ldg ≠ s.ldg ∨ s2.ledgerFile ≠ s.ledgerFile →
        ∃ account currentAccount, readResult = .ok account ∧
          s.store.lookup account.id = some currentAccount ∧
          lan currentAccount ≠ lan account) := by
  constructor
  · intro account currentAccount hread hlookup heq
    unfold updateAccount
    simp only [hread, hlookup]
    rw [if_neg (not_not_intro heq.symm)]
  · intro s2 code hrun hne
    rcases hread : readResult with msg | account
    · unfold updateAccount at hrun
      simp only [hread] at hrun
      cases hrun
      rcases hne with h | h <;> exact absurd rfl h
    · unfold updateAccount at hrun
      simp only [hread] at hrun
      rcases hlookup : s.store.lookup account.id with _ | currentAccount <;>
        simp only [hlookup] at hrun
      · cases hrun
        rcases hne with h | h <;> exact absurd rfl h
      · by_cases hn : lan currentAccount ≠ lan account
        · exact ⟨account, currentAccount, rfl, hlookup, hn⟩
        · rw [if_neg hn] at hrun
          cases hrun
          rcases hne with h | h <;> exact absurd rfl h

/-- Witness for C8: updating a stored account with an account deriving the
same ledger account name changes only the store entry and returns 200. -/
theorem updateAccount_frame_witness :
    updateAccount (fun a => a.id) (.ok fixtures.sampleAccount) fixtures.sampleServerState =
      ({ fixtures.sampleServerState with
          store := storeUpdate fixtures.sampleServerState.store "acct-1"
            fixtures.sampleAccount }, StatusOK) :=
  (updateAccount_frame (fun a => a.id) (.ok fixtures.sampleAccount)
      fixtures.sampleServerState).1 fixtures.sampleAccount fixtures.storedAccount
      rfl rfl rfl

/-- C2 (exhibit of the code's behavior): in the sync goroutine of
`server.Run`, a partial (`ledger.Error`) failure of the initial sync does
not prevent the scheduled cycles from running (first conjunct: all three
planned sync calls execute), but a partial failure on a scheduled ticker
cycle halts the loop: with outcomes success, ledger-error, success, only
two sync calls execute and the third scheduled cycle never runs (second
conjunct), because the ticker branch returns on any error without the
`ledger.Error` partial-failure check the initial sync performs. -/
theorem syncGoroutine_halts_on_scheduled_ledger_error :
    syncGoroutine [SyncOutcome.ledgerError, SyncOutcome.success, SyncOutcome.success] = 3 ∧
    syncGoroutine [SyncOutcome.success, SyncOutcome.ledgerError, SyncOutcome.success] = 2 := by
  decide

end server
